import Mathlib

/-!
Verification of the MotionMonitor backend core (src/backend/app.py):
the per-connection freefall/impact fall detector and the spectral
cadence estimator, embedded shallowly over real numbers.
-/

namespace Vesta

/-! ### Fall detection (app.py lines 83-139) -/

/-- Constant `FREEFALL_THRESHOLD = 5.0` (app.py line 83). -/
def FREEFALL_THRESHOLD : ℝ := 5

/-- Constant `IMPACT_THRESHOLD = 15.0` (app.py line 84). -/
def IMPACT_THRESHOLD : ℝ := 15

/-- Constant `FALL_TIME_WINDOW_MS = 1_000` (app.py line 85). -/
def FALL_TIME_WINDOW_MS : ℝ := 1000

/-- A raw inbound field: either a numeric value or a missing/non-numeric
payload (anything for which Python `float(value)` raises). -/
inductive RawVal where
  | num : ℝ → RawVal
  | bad : RawVal


/-- Embedding of `_coerce_float` (app.py lines 90-94): best-effort float
conversion with silent fallback to `0.0`. -/
def coerce_float : RawVal → ℝ
  | RawVal.num q => q
  | RawVal.bad => 0

/-- Embedding of `_coerce_timestamp_ms` (app.py lines 97-101): best-effort
float conversion with fallback to the current wall-clock time in
milliseconds; the wall clock is passed explicitly as `now`. -/
def coerce_timestamp_ms : RawVal → ℝ → ℝ
  | RawVal.num q, _ => q
  | RawVal.bad, now => now

/-- Per-connection fall-detection state (`user_state[sid]`, initialized at
app.py line 169 with `in_freefall = False`, `freefall_time = 0.0`). -/
structure FallState where
  in_freefall : Bool
  freefall_time : ℝ


/-- The freshly initialized state installed on connect (app.py line 169). -/
def initState : FallState := ⟨false, 0⟩

/-- A fall event; the core payload is the impact acceleration magnitude
(app.py lines 119-132). -/
structure FallEvent where
  impactAcceleration : ℝ


/-- Embedding of `_check_for_fall` (app.py lines 104-139) for a tracked
connection, as a pure state transition.  The Python function mutates
`state` and emits at most one `fall_detected` event as a side effect; here
it returns the updated state and the optional event.  `now` is the current
wall-clock time in milliseconds used by `_coerce_timestamp_ms`. -/
noncomputable def check_for_fall (state : FallState)
    (acc_x acc_y acc_z timestamp_ms : RawVal) (now : ℝ) :
    FallState × Option FallEvent :=
  let acc_x_f := coerce_float acc_x
  let acc_y_f := coerce_float acc_y
  let acc_z_f := coerce_float acc_z
  let timestamp_value := coerce_timestamp_ms timestamp_ms now
  let acc_mag := Real.sqrt (acc_x_f ^ 2 + acc_y_f ^ 2 + acc_z_f ^ 2)
  let after_window : FallState × Option FallEvent :=
    if state.in_freefall then
      let elapsed := timestamp_value - state.freefall_time
      if IMPACT_THRESHOLD < acc_mag ∧ elapsed < FALL_TIME_WINDOW_MS then
        (⟨false, state.freefall_time⟩, some ⟨acc_mag⟩)
      else if FALL_TIME_WINDOW_MS ≤ elapsed then
        (⟨false, state.freefall_time⟩, none)
      else (state, none)
    else (state, none)
  if acc_mag < FREEFALL_THRESHOLD then
    (⟨true, timestamp_value⟩, after_window.2)
  else after_window

/-- One inbound `sensor_update` sample as handed to `_check_for_fall`
(app.py lines 209-216): the three accelerometer components and the client
timestamp, each possibly missing or non-numeric. -/
structure Sample where
  acc_x : RawVal
  acc_y : RawVal
  acc_z : RawVal
  timestamp_ms : RawVal

/-- Replay of an ordered sample sequence through `_check_for_fall`,
threading the per-connection state and collecting emitted events.  The
list `clocks` supplies the wall-clock reading for each call (consumed
positionally); it models the only environmental input of the detector. -/
noncomputable def runFall : FallState → List Sample → List ℝ → FallState × List FallEvent
  | s, [], _ => (s, [])
  | s, smp :: rest, clocks =>
    let r1 := check_for_fall s smp.acc_x smp.acc_y smp.acc_z smp.timestamp_ms (clocks.headD 0)
    let r2 := runFall r1.1 rest clocks.tail
    (r2.1, r1.2.toList ++ r2.2)

/-- The acceleration magnitude computed at app.py line 114. -/
noncomputable def accMag (acc_x acc_y acc_z : RawVal) : ℝ :=
  Real.sqrt (coerce_float acc_x ^ 2 + coerce_float acc_y ^ 2 + coerce_float acc_z ^ 2)

theorem check_for_fall_def (state : FallState)
    (acc_x acc_y acc_z timestamp_ms : RawVal) (now : ℝ) :
    check_for_fall state acc_x acc_y acc_z timestamp_ms now =
      (let timestamp_value := coerce_timestamp_ms timestamp_ms now
       let acc_mag := accMag acc_x acc_y acc_z
       let after_window : FallState × Option FallEvent :=
         if state.in_freefall then
           let elapsed := timestamp_value - state.freefall_time
           if IMPACT_THRESHOLD < acc_mag ∧ elapsed < FALL_TIME_WINDOW_MS then
             (⟨false, state.freefall_time⟩, some ⟨acc_mag⟩)
           else if FALL_TIME_WINDOW_MS ≤ elapsed then
             (⟨false, state.freefall_time⟩, none)
           else (state, none)
         else (state, none)
       if acc_mag < FREEFALL_THRESHOLD then
         (⟨true, timestamp_value⟩, after_window.2)
       else after_window) := rfl

/-! ### Helper lemmas about the fall detector -/

lemma freefall_le_impact : FREEFALL_THRESHOLD ≤ IMPACT_THRESHOLD := by
  norm_num [FREEFALL_THRESHOLD, IMPACT_THRESHOLD]

/-- Re-arm clause (app.py lines 137-139): whenever the magnitude is strictly
below the freefall threshold, the post-state is freefalling with the
coerced timestamp, no matter what happened in the window logic. -/
lemma check_for_fall_rearm (s : FallState) (ax ay az ts : RawVal) (now : ℝ)
    (h : accMag ax ay az < FREEFALL_THRESHOLD) :
    (check_for_fall s ax ay az ts now).1 = ⟨true, coerce_timestamp_ms ts now⟩ := by
  rw [check_for_fall_def]
  simp only [if_pos h]

/-- Window-expiry clause (app.py lines 134-135): in freefall with
`elapsed >= FALL_TIME_WINDOW_MS` no event is emitted, and the freefall flag
is cleared unless the re-arm clause immediately sets it again. -/
lemma check_for_fall_expiry (s : FallState) (ax ay az ts : RawVal) (now : ℝ)
    (hff : s.in_freefall = true)
    (hexp : FALL_TIME_WINDOW_MS ≤ coerce_timestamp_ms ts now - s.freefall_time) :
    (check_for_fall s ax ay az ts now).2 = none ∧
      (FREEFALL_THRESHOLD ≤ accMag ax ay az →
        (check_for_fall s ax ay az ts now).1 = ⟨false, s.freefall_time⟩) ∧
      (accMag ax ay az < FREEFALL_THRESHOLD →
        (check_for_fall s ax ay az ts now).1 = ⟨true, coerce_timestamp_ms ts now⟩) := by
  have hc1 : ¬ (IMPACT_THRESHOLD < accMag ax ay az ∧
      coerce_timestamp_ms ts now - s.freefall_time < FALL_TIME_WINDOW_MS) := by
    rintro ⟨-, hlt⟩
    exact absurd hexp (not_le.2 hlt)
  rw [check_for_fall_def]
  simp only [hff, if_true, if_neg hc1, if_pos hexp]
  by_cases hm : accMag ax ay az < FREEFALL_THRESHOLD
  · simp only [if_pos hm]
    exact ⟨trivial, fun hge => absurd hm (not_lt.2 hge), fun _ => trivial⟩
  · simp only [if_neg hm]
    exact ⟨trivial, fun _ => trivial, fun hlt => absurd hlt hm⟩

/-- Impact clause (app.py lines 118-133): in freefall, magnitude above the
impact threshold within the window fires exactly one event carrying the
magnitude and grounds the connection. -/
lemma check_for_fall_impact (s : FallState) (ax ay az ts : RawVal) (now : ℝ)
    (hff : s.in_freefall = true)
    (himp : IMPACT_THRESHOLD < accMag ax ay az)
    (hwin : coerce_timestamp_ms ts now - s.freefall_time < FALL_TIME_WINDOW_MS) :
    check_for_fall s ax ay az ts now =
      (⟨false, s.freefall_time⟩, some ⟨accMag ax ay az⟩) := by
  have hm : ¬ accMag ax ay az < FREEFALL_THRESHOLD :=
    not_lt.2 (le_of_lt (lt_of_le_of_lt freefall_le_impact himp))
  rw [check_for_fall_def]
  simp only [hff, if_true, if_pos (And.intro himp hwin), if_neg hm]

lemma accMag_z (c : ℝ) (hc : 0 ≤ c) :
    accMag (RawVal.num 0) (RawVal.num 0) (RawVal.num c) = c := by
  unfold accMag coerce_float
  rw [show (0:ℝ) ^ 2 + 0 ^ 2 + c ^ 2 = c ^ 2 by ring, Real.sqrt_sq hc]

/-! ### Claims C1, C2, C3, C7, C9 (fall detector single step) -/

/-- Claim C1 counterexample: state in freefall since time 0, sample at
timestamp 1500 (elapsed 1500 >= FALL_TIME_WINDOW_MS) with magnitude 1
(below FREEFALL_THRESHOLD).  The claim demands the post-state be grounded;
the code re-arms freefall instead, so `in_freefall` is `true` after the
call. -/
theorem C1_counterexample :
    FALL_TIME_WINDOW_MS ≤
        coerce_timestamp_ms (RawVal.num 1500) 0 - (FallState.mk true 0).freefall_time ∧
      accMag (RawVal.num 0) (RawVal.num 0) (RawVal.num 1) < FREEFALL_THRESHOLD ∧
      (check_for_fall ⟨true, 0⟩ (RawVal.num 0) (RawVal.num 0) (RawVal.num 1)
          (RawVal.num 1500) 0).1.in_freefall = true := by
  have hmag : accMag (RawVal.num 0) (RawVal.num 0) (RawVal.num 1) = 1 :=
    accMag_z 1 (by norm_num)
  have hm5 : accMag (RawVal.num 0) (RawVal.num 0) (RawVal.num 1) < FREEFALL_THRESHOLD := by
    rw [hmag]; norm_num [FREEFALL_THRESHOLD]
  refine ⟨by norm_num [FALL_TIME_WINDOW_MS, coerce_timestamp_ms], hm5, ?_⟩
  rw [check_for_fall_rearm _ _ _ _ _ _ hm5]

/-- Claim C1, amended: in freefall with `elapsed >= FALL_TIME_WINDOW_MS`
the call produces no event, and it grounds the connection provided the
sample magnitude is at least FREEFALL_THRESHOLD; a magnitude below
FREEFALL_THRESHOLD instead re-arms freefall at the sample's coerced
timestamp (app.py lines 134-139). -/
theorem C1_expiry_no_event (s : FallState) (ax ay az ts : RawVal) (now : ℝ)
    (hff : s.in_freefall = true)
    (hexp : FALL_TIME_WINDOW_MS ≤ coerce_timestamp_ms ts now - s.freefall_time) :
    (check_for_fall s ax ay az ts now).2 = none ∧
      (FREEFALL_THRESHOLD ≤ accMag ax ay az →
        (check_for_fall s ax ay az ts now).1 = ⟨false, s.freefall_time⟩) ∧
      (accMag ax ay az < FREEFALL_THRESHOLD →
        (check_for_fall s ax ay az ts now).1 = ⟨true, coerce_timestamp_ms ts now⟩) :=
  check_for_fall_expiry s ax ay az ts now hff hexp

/-- Witness for the amended C1: concrete expired-window sample of
magnitude 20 leaves the connection grounded with no event. -/
theorem C1_expiry_no_event_witness :
    (check_for_fall ⟨true, 0⟩ (RawVal.num 0) (RawVal.num 0) (RawVal.num 20)
        (RawVal.num 1500) 0).2 = none ∧
      (check_for_fall ⟨true, 0⟩ (RawVal.num 0) (RawVal.num 0) (RawVal.num 20)
          (RawVal.num 1500) 0).1 = ⟨false, 0⟩ := by
  have h := C1_expiry_no_event ⟨true, 0⟩ (RawVal.num 0) (RawVal.num 0) (RawVal.num 20)
    (RawVal.num 1500) 0 rfl (by norm_num [FALL_TIME_WINDOW_MS, coerce_timestamp_ms])
  exact ⟨h.1, h.2.1 (by rw [accMag_z 20 (by norm_num)]; norm_num [FREEFALL_THRESHOLD])⟩

/-- Claim C2: in freefall, a sample with magnitude above IMPACT_THRESHOLD
arriving with elapsed strictly inside the window fires exactly one
FallEvent whose impact acceleration is the magnitude, and grounds the
connection (app.py lines 118-133; the re-arm clause cannot fire because
IMPACT_THRESHOLD exceeds FREEFALL_THRESHOLD). -/
theorem C2_impact_event (s : FallState) (ax ay az ts : RawVal) (now : ℝ)
    (hff : s.in_freefall = true)
    (himp : IMPACT_THRESHOLD < accMag ax ay az)
    (hwin : coerce_timestamp_ms ts now - s.freefall_time < FALL_TIME_WINDOW_MS) :
    (check_for_fall s ax ay az ts now).2 = some ⟨accMag ax ay az⟩ ∧
      (check_for_fall s ax ay az ts now).1.in_freefall = false := by
  rw [check_for_fall_impact s ax ay az ts now hff himp hwin]
  exact ⟨rfl, rfl⟩

/-- Witness for C2: freefall since 0, impact sample of magnitude 20 at
timestamp 500 fires the event with impact acceleration 20. -/
theorem C2_impact_event_witness :
    (check_for_fall ⟨true, 0⟩ (RawVal.num 0) (RawVal.num 0) (RawVal.num 20)
        (RawVal.num 500) 0).2 = some ⟨20⟩ ∧
      (check_for_fall ⟨true, 0⟩ (RawVal.num 0) (RawVal.num 0) (RawVal.num 20)
          (RawVal.num 500) 0).1.in_freefall = false := by
  have hmag : accMag (RawVal.num 0) (RawVal.num 0) (RawVal.num 20) = 20 :=
    accMag_z 20 (by norm_num)
  have h := C2_impact_event ⟨true, 0⟩ (RawVal.num 0) (RawVal.num 0) (RawVal.num 20)
    (RawVal.num 500) 0 rfl (by rw [hmag]; norm_num [IMPACT_THRESHOLD])
    (by norm_num [FALL_TIME_WINDOW_MS, coerce_timestamp_ms])
  rw [hmag] at h
  exact h

/-- Claim C3: in any state, a sample whose magnitude is strictly below
FREEFALL_THRESHOLD leaves the post-state freefalling with
`freefall_time` equal to the sample's coerced timestamp (app.py
lines 137-139); this holds in the same call in which an event fires or
the window expires. -/
theorem C3_freefall_rearm (s : FallState) (ax ay az ts : RawVal) (now : ℝ)
    (h : accMag ax ay az < FREEFALL_THRESHOLD) :
    (check_for_fall s ax ay az ts now).1 = ⟨true, coerce_timestamp_ms ts now⟩ :=
  check_for_fall_rearm s ax ay az ts now h

/-- Witness for C3: a grounded state and a magnitude-1 sample at
timestamp 42 transitions into freefall stamped 42. -/
theorem C3_freefall_rearm_witness :
    (check_for_fall ⟨false, 7⟩ (RawVal.num 0) (RawVal.num 0) (RawVal.num 1)
        (RawVal.num 42) 0).1 = ⟨true, 42⟩ := by
  have h := C3_freefall_rearm ⟨false, 7⟩ (RawVal.num 0) (RawVal.num 0) (RawVal.num 1)
    (RawVal.num 42) 0 (by rw [accMag_z 1 (by norm_num)]; norm_num [FREEFALL_THRESHOLD])
  exact h

/-- Claim C7: live-ingestion coercion.  A non-numeric component coerces to
0.0, a non-numeric or missing timestamp coerces to the current wall-clock
time, and `_check_for_fall` on raw input behaves exactly as on the coerced
numeric input — malformed fields never surface an error and never stop
detection on a tracked connection (app.py lines 90-101, 109-112). -/
theorem C7_coercion_total (s : FallState) (ax ay az ts : RawVal) (now : ℝ) :
    coerce_float RawVal.bad = 0 ∧
      coerce_timestamp_ms RawVal.bad now = now ∧
      check_for_fall s ax ay az ts now =
        check_for_fall s (RawVal.num (coerce_float ax)) (RawVal.num (coerce_float ay))
          (RawVal.num (coerce_float az)) (RawVal.num (coerce_timestamp_ms ts now)) now := by
  refine ⟨rfl, rfl, ?_⟩
  cases ax <;> cases ay <;> cases az <;> cases ts <;> rfl

/-- Claim C9: a sample with all three acceleration components non-numeric
coerces to magnitude 0, which is strictly below FREEFALL_THRESHOLD, so in
every state the call arms freefall stamped with the coerced timestamp
(app.py lines 109-114, 137-139). -/
theorem C9_malformed_arms_freefall (s : FallState) (ts : RawVal) (now : ℝ) :
    accMag RawVal.bad RawVal.bad RawVal.bad = 0 ∧
      accMag RawVal.bad RawVal.bad RawVal.bad < FREEFALL_THRESHOLD ∧
      (check_for_fall s RawVal.bad RawVal.bad RawVal.bad ts now).1 =
        ⟨true, coerce_timestamp_ms ts now⟩ := by
  have h0 : accMag RawVal.bad RawVal.bad RawVal.bad = 0 := by
    unfold accMag coerce_float
    rw [show (0:ℝ) ^ 2 + 0 ^ 2 + 0 ^ 2 = 0 by ring, Real.sqrt_zero]
  have h5 : accMag RawVal.bad RawVal.bad RawVal.bad < FREEFALL_THRESHOLD := by
    rw [h0]; norm_num [FREEFALL_THRESHOLD]
  exact ⟨h0, h5, check_for_fall_rearm s _ _ _ ts now h5⟩

/-! ### Claim C6: replay determinism -/

/-- A freefall-inducing sample (magnitude 1) with a missing timestamp. -/
def smpFree : Sample := ⟨RawVal.num 0, RawVal.num 0, RawVal.num 1, RawVal.bad⟩

/-- An impact-strength sample (magnitude 20) with a missing timestamp. -/
def smpHit : Sample := ⟨RawVal.num 0, RawVal.num 0, RawVal.num 20, RawVal.bad⟩

lemma check_smpFree (s : FallState) (now : ℝ) (hs : s.in_freefall = false) :
    check_for_fall s smpFree.acc_x smpFree.acc_y smpFree.acc_z smpFree.timestamp_ms now =
      (⟨true, now⟩, none) := by
  have hmag : accMag smpFree.acc_x smpFree.acc_y smpFree.acc_z = 1 :=
    accMag_z 1 (by norm_num)
  have hm5 : accMag smpFree.acc_x smpFree.acc_y smpFree.acc_z < FREEFALL_THRESHOLD := by
    rw [hmag]; norm_num [FREEFALL_THRESHOLD]
  rw [check_for_fall_def]
  simp only [hs, Bool.false_eq_true, if_false, if_pos hm5]
  rfl

/-- Claim C6 counterexample: identical ordered sample sequences whose
second sample lacks a timestamp produce different event sequences when
replayed under different wall-clock readings — with the missing timestamp
coerced to wall-clock time 500 the impact lands inside the window and an
event fires, while wall-clock time 2000 expires the window silently.  So
the emitted events are not a function of the input sequence alone. -/
theorem C6_counterexample :
    (runFall initState [smpFree, smpHit] [0, 500]).2 ≠
      (runFall initState [smpFree, smpHit] [0, 2000]).2 := by
  have hmag : accMag smpHit.acc_x smpHit.acc_y smpHit.acc_z = 20 :=
    accMag_z 20 (by norm_num)
  have hstep1 : check_for_fall initState smpFree.acc_x smpFree.acc_y smpFree.acc_z
      smpFree.timestamp_ms 0 = (⟨true, 0⟩, none) := check_smpFree initState 0 rfl
  have hhit : ∀ now : ℝ, coerce_timestamp_ms smpHit.timestamp_ms now = now := fun _ => rfl
  have hstep2a : check_for_fall ⟨true, 0⟩ smpHit.acc_x smpHit.acc_y smpHit.acc_z
      smpHit.timestamp_ms 500 = (⟨false, 0⟩, some ⟨20⟩) := by
    have h := check_for_fall_impact ⟨true, 0⟩ smpHit.acc_x smpHit.acc_y smpHit.acc_z
      smpHit.timestamp_ms 500 rfl (by rw [hmag]; norm_num [IMPACT_THRESHOLD])
      (by rw [hhit]; norm_num [FALL_TIME_WINDOW_MS])
    rw [h, hmag]
  have hstep2b : (check_for_fall ⟨true, 0⟩ smpHit.acc_x smpHit.acc_y smpHit.acc_z
      smpHit.timestamp_ms 2000).2 = none := by
    have h := check_for_fall_expiry ⟨true, 0⟩ smpHit.acc_x smpHit.acc_y smpHit.acc_z
      smpHit.timestamp_ms 2000 rfl (by rw [hhit]; norm_num [FALL_TIME_WINDOW_MS])
    exact h.1
  simp only [runFall, List.headD, List.tail, hstep1, hstep2a]
  intro hcontra
  rw [hstep2b] at hcontra
  simp at hcontra

/-- Claim C6, amended: when every sample in the sequence carries a numeric
timestamp, replaying the same ordered sequence from the freshly
initialized state yields the same final state and the same emitted event
sequence regardless of the wall-clock readings — the detector is then a
deterministic function of the input sequence alone.  (With missing
timestamps the wall clock enters through `_coerce_timestamp_ms`, as the
counterexample shows.) -/
theorem C6_deterministic_replay (samples : List Sample)
    (h : ∀ smp ∈ samples, smp.timestamp_ms ≠ RawVal.bad)
    (c1 c2 : List ℝ) :
    runFall initState samples c1 = runFall initState samples c2 := by
  suffices hgen : ∀ (samples : List Sample),
      (∀ smp ∈ samples, smp.timestamp_ms ≠ RawVal.bad) →
      ∀ (s : FallState) (c1 c2 : List ℝ),
      runFall s samples c1 = runFall s samples c2 by
    exact hgen samples h initState c1 c2
  intro samples hsm
  induction samples with
  | nil => intro s d1 d2; rfl
  | cons smp rest ih =>
    intro s d1 d2
    have hts : smp.timestamp_ms ≠ RawVal.bad := hsm smp (List.mem_cons_self smp rest)
    have hstep : check_for_fall s smp.acc_x smp.acc_y smp.acc_z smp.timestamp_ms (d1.headD 0)
        = check_for_fall s smp.acc_x smp.acc_y smp.acc_z smp.timestamp_ms (d2.headD 0) := by
      cases heq : smp.timestamp_ms with
      | num q => rfl
      | bad => exact absurd heq hts
    have hrest : ∀ smp2 ∈ rest, smp2.timestamp_ms ≠ RawVal.bad :=
      fun smp2 hmem => hsm smp2 (List.mem_cons_of_mem smp hmem)
    simp only [runFall, hstep, ih hrest _ d1.tail d2.tail]

/-- Witness for the amended C6: a one-sample sequence with a numeric
timestamp replays identically under wall clocks 3 and 7. -/
theorem C6_deterministic_replay_witness :
    runFall initState [⟨RawVal.num 0, RawVal.num 0, RawVal.num 1, RawVal.num 5⟩] [3] =
      runFall initState [⟨RawVal.num 0, RawVal.num 0, RawVal.num 1, RawVal.num 5⟩] [7] := by
  refine C6_deterministic_replay _ ?_ [3] [7]
  intro smp hmem
  simp only [List.mem_singleton] at hmem
  subst hmem
  intro hcontra
  exact RawVal.noConfusion hcontra

/-! ### Cadence estimation (`analyze_gait`, app.py lines 224-293)

A history row as read back from the CSV by `csv.DictReader`: each field is
a string that either parses (`Option.some` of the parsed value) or fails
to parse (`Option.none`, covering both malformed text and a missing
column).  Timestamps are in seconds, matching `datetime.total_seconds`. -/

structure GaitRow where
  server_timestamp_utc : Option ℝ
  acc_x : Option ℝ
  acc_y : Option ℝ
  acc_z : Option ℝ

/-- The cadence report returned on success (app.py lines 288-293). -/
structure GaitReport where
  cadence : ℝ
  dominant_frequency : ℝ
  sampling_frequency : ℝ
  data_points : ℕ

/-- Timestamp parsing loop (app.py lines 245-251): rows whose server
timestamp fails to parse are skipped. -/
def gaitTimestamps (rows : List GaitRow) : List ℝ :=
  rows.filterMap (fun r => r.server_timestamp_utc)

/-- Mean inter-sample interval in seconds (app.py lines 257-258):
successive deltas of the parsed timestamps, averaged. -/
noncomputable def gaitDt (rows : List GaitRow) : ℝ :=
  let ts := gaitTimestamps rows
  let dts := List.zipWith (fun a b => a - b) ts.tail ts
  dts.sum / dts.length

/-- Acceleration parsing (app.py lines 265-270): every row must have all
three acceleration components numeric, else the whole computation fails. -/
def accComponents : List GaitRow → Option (List (ℝ × ℝ × ℝ))
  | [] => some []
  | r :: rest =>
    match r.acc_x, r.acc_y, r.acc_z, accComponents rest with
    | some x, some y, some z, some l => some ((x, y, z) :: l)
    | _, _, _, _ => none

/-- Acceleration magnitude sequence (app.py line 272). -/
noncomputable def accMagnitudes (comps : List (ℝ × ℝ × ℝ)) : List ℝ :=
  comps.map (fun c => Real.sqrt (c.1 ^ 2 + c.2.1 ^ 2 + c.2.2 ^ 2))

/-- `scipy.fft.fftfreq(N, d)` bin center `k` (app.py line 276): frequencies
`[0, 1, ..., (N-1)//2, -(N//2), ..., -1] / (d*N)`. -/
noncomputable def fftfreqVal (N : ℕ) (d : ℝ) (k : ℕ) : ℝ :=
  if k ≤ (N - 1) / 2 then (k : ℝ) / (d * N) else ((k : ℝ) - N) / (d * N)

/-- Indices of the strictly positive frequency bins, in grid order
(the boolean mask `xf > 0` at app.py lines 278-279). -/
noncomputable def posKs (N : ℕ) (d : ℝ) : List ℕ :=
  (List.range N).filter (fun k => decide (0 < fftfreqVal N d k))

/-- The discrete Fourier transform of the magnitude sequence
(`scipy.fft.fft`, app.py line 275): bin `k` is
`\sum_n x_n \exp(-2 pi i k n / N)`. -/
noncomputable def dft (x : List ℝ) (k : ℕ) : ℂ :=
  ∑ n ∈ Finset.range x.length,
    (x.getD n 0 : ℂ) *
      Complex.exp (-(2 * (Real.pi : ℂ) * Complex.I * k * n) / (x.length : ℂ))

/-- `positive_freqs = xf[xf > 0]` (app.py line 278). -/
noncomputable def gaitFreqList (N : ℕ) (d : ℝ) : List ℝ :=
  (posKs N d).map (fftfreqVal N d)

/-- `magnitudes = np.abs(yf[xf > 0])` (app.py line 279). -/
noncomputable def gaitMagList (N : ℕ) (d : ℝ) (mags : List ℝ) : List ℝ :=
  (posKs N d).map (fun k => Complex.abs (dft mags k))

/-- `np.argmax`: index of the first occurrence of the maximum
(app.py line 284). -/
noncomputable def argmaxFirst : List ℝ → ℕ
  | [] => 0
  | x :: xs => if x < xs.getD (argmaxFirst xs) x then argmaxFirst xs + 1 else 0

/-- Embedding of `analyze_gait` (app.py lines 224-293) over an in-memory
history.  `None` models every `return None` path (the estimator's
InsufficientData signal); file I/O and the import guard are outside the
core.  The deltas/mean cannot produce NaN over the reals, so the
`np.isnan(dt)` disjunct of the gate at line 259 is vacuous here. -/
noncomputable def analyze_gait (rows : List GaitRow) : Option GaitReport :=
  if rows.length < 2 then none
  else if (gaitTimestamps rows).length < 2 then none
  else if gaitDt rows ≤ 0 then none
  else
    match accComponents rows with
    | none => none
    | some comps =>
      let acc_mag := accMagnitudes comps
      let N := acc_mag.length
      let fs := 1 / gaitDt rows
      let positive_freqs := gaitFreqList N (1 / fs)
      let magnitudes := gaitMagList N (1 / fs) acc_mag
      if magnitudes.length = 0 then none
      else
        let dominant_idx := argmaxFirst magnitudes
        let dominant_freq := positive_freqs.getD dominant_idx 0
        some ⟨dominant_freq * 60, dominant_freq, fs, N⟩

/-! ### Claims C4 and C10 -/

/-- Claim C4: the estimator returns InsufficientData (None) whenever the
history has fewer than 2 records, fewer than 2 parseable server
timestamps, a non-positive mean inter-sample interval, or any record with
a non-numeric acceleration component.  The embedding is a total function,
so no exception path exists (app.py lines 241-270). -/
theorem C4_insufficient_data (rows : List GaitRow)
    (h : rows.length < 2 ∨ (gaitTimestamps rows).length < 2 ∨
      gaitDt rows ≤ 0 ∨ accComponents rows = none) :
    analyze_gait rows = none := by
  unfold analyze_gait
  split_ifs with h1 h2 h3
  · rfl
  · rfl
  · rfl
  · rcases h with hh | hh | hh | hh
    · exact absurd hh h1
    · exact absurd hh h2
    · exact absurd hh h3
    · rw [hh]

/-- Witness for C4: the empty history yields InsufficientData. -/
theorem C4_insufficient_data_witness : analyze_gait [] = none :=
  C4_insufficient_data [] (Or.inl (by norm_num))

lemma fftfreqVal_two_zero (d : ℝ) : fftfreqVal 2 d 0 = 0 := by
  unfold fftfreqVal
  norm_num

lemma fftfreqVal_two_one (d : ℝ) (hd : 0 < d) : fftfreqVal 2 d 1 < 0 := by
  unfold fftfreqVal
  norm_num
  exact div_neg_of_neg_of_pos (by norm_num) (by positivity)

lemma posKs_two (d : ℝ) (hd : 0 < d) : posKs 2 d = [] := by
  unfold posKs
  rw [List.filter_eq_nil_iff]
  intro k hk
  rw [List.mem_range] at hk
  interval_cases k
  · simp [fftfreqVal_two_zero]
  · simp only [decide_eq_true_eq, not_lt]
    exact le_of_lt (fftfreqVal_two_one d hd)

/-- Claim C10: a history of exactly two fully valid records with
increasing timestamps still yields InsufficientData, because the 2-point
frequency grid holds only the bins `0` and `-fs/2` and so no strictly
positive bin exists (app.py lines 274-282). -/
theorem C10_two_point_history (t1 t2 x1 y1 z1 x2 y2 z2 : ℝ) (hlt : t1 < t2) :
    analyze_gait [⟨some t1, some x1, some y1, some z1⟩,
        ⟨some t2, some x2, some y2, some z2⟩] = none ∧
      fftfreqVal 2 (t2 - t1) 0 = 0 ∧ fftfreqVal 2 (t2 - t1) 1 < 0 := by
  set rows : List GaitRow :=
    [⟨some t1, some x1, some y1, some z1⟩, ⟨some t2, some x2, some y2, some z2⟩] with hrows
  have hts : gaitTimestamps rows = [t1, t2] := rfl
  have hdt : gaitDt rows = t2 - t1 := by
    unfold gaitDt
    rw [hts]
    simp
  have hdtpos : 0 < gaitDt rows := by rw [hdt]; linarith
  have hcomps : accComponents rows = some [(x1, y1, z1), (x2, y2, z2)] := rfl
  refine ⟨?_, fftfreqVal_two_zero _, fftfreqVal_two_one _ (by linarith)⟩
  unfold analyze_gait
  rw [if_neg (by norm_num [hrows]), if_neg (by rw [hts]; norm_num),
    if_neg (not_le.2 hdtpos), hcomps]
  have hN : (accMagnitudes [(x1, y1, z1), (x2, y2, z2)]).length = 2 := rfl
  have hd1 : 1 / (1 / gaitDt rows) = gaitDt rows := by
    rw [one_div_one_div]
  simp only [hN, hd1]
  rw [show gaitMagList 2 (gaitDt rows) (accMagnitudes [(x1, y1, z1), (x2, y2, z2)]) =
      [] by unfold gaitMagList; rw [posKs_two _ hdtpos]; rfl]
  rfl

/-! ### Properties of `argmaxFirst` (np.argmax first-occurrence tie-break) -/

lemma argmaxFirst_lt_length (l : List ℝ) (hl : l ≠ []) : argmaxFirst l < l.length := by
  induction l with
  | nil => exact absurd rfl hl
  | cons x xs ih =>
    unfold argmaxFirst
    by_cases hc : x < xs.getD (argmaxFirst xs) x
    · rw [if_pos hc]
      have hxs : xs ≠ [] := by
        intro hxe
        subst hxe
        simp only [List.getD] at hc
        exact absurd hc (lt_irrefl x)
      have := ih hxs
      simpa using Nat.succ_lt_succ this
    · rw [if_neg hc]
      simp

lemma getD_le_argmaxFirst (l : List ℝ) (t : ℕ) (ht : t < l.length) :
    l.getD t 0 ≤ l.getD (argmaxFirst l) 0 := by
  induction l generalizing t with
  | nil => simp at ht
  | cons x xs ih =>
    unfold argmaxFirst
    by_cases hc : x < xs.getD (argmaxFirst xs) x
    · rw [if_pos hc]
      have hxs : xs ≠ [] := by
        intro hxe
        subst hxe
        simp only [List.getD] at hc
        exact absurd hc (lt_irrefl x)
      have hjlt : argmaxFirst xs < xs.length := argmaxFirst_lt_length xs hxs
      have hgd : xs.getD (argmaxFirst xs) x = xs.getD (argmaxFirst xs) 0 := by
        rw [List.getD_eq_getElem _ _ hjlt, List.getD_eq_getElem _ _ hjlt]
      cases t with
      | zero =>
        simp only [List.getD_cons_zero, List.getD_cons_succ]
        rw [← hgd]
        exact le_of_lt hc
      | succ s =>
        simp only [List.getD_cons_succ]
        exact ih s (by simpa using ht)
    · rw [if_neg hc]
      cases t with
      | zero => simp
      | succ s =>
        simp only [List.getD_cons_succ, List.getD_cons_zero]
        have hs : s < xs.length := by simpa using ht
        have hxs : xs ≠ [] := by
          intro hxe
          subst hxe
          simp at hs
        have hjlt : argmaxFirst xs < xs.length := argmaxFirst_lt_length xs hxs
        have hgd : xs.getD (argmaxFirst xs) x = xs.getD (argmaxFirst xs) 0 := by
          rw [List.getD_eq_getElem _ _ hjlt, List.getD_eq_getElem _ _ hjlt]
        calc xs.getD s 0 ≤ xs.getD (argmaxFirst xs) 0 := ih s hs
          _ = xs.getD (argmaxFirst xs) x := hgd.symm
          _ ≤ x := not_lt.1 hc

lemma getD_lt_argmaxFirst (l : List ℝ) (t : ℕ) (ht : t < argmaxFirst l) :
    l.getD t 0 < l.getD (argmaxFirst l) 0 := by
  induction l generalizing t with
  | nil => simp [argmaxFirst] at ht
  | cons x xs ih =>
    unfold argmaxFirst at ht ⊢
    by_cases hc : x < xs.getD (argmaxFirst xs) x
    · rw [if_pos hc] at ht ⊢
      have hxs : xs ≠ [] := by
        intro hxe
        subst hxe
        simp only [List.getD] at hc
        exact absurd hc (lt_irrefl x)
      have hjlt : argmaxFirst xs < xs.length := argmaxFirst_lt_length xs hxs
      have hgd : xs.getD (argmaxFirst xs) x = xs.getD (argmaxFirst xs) 0 := by
        rw [List.getD_eq_getElem _ _ hjlt, List.getD_eq_getElem _ _ hjlt]
      cases t with
      | zero =>
        simp only [List.getD_cons_zero, List.getD_cons_succ]
        rw [← hgd]
        exact hc
      | succ s =>
        simp only [List.getD_cons_succ]
        exact ih s (by omega)
    · rw [if_neg hc] at ht
      exact absurd ht (Nat.not_lt_zero t)

lemma argmaxFirst_eq_of_strict_max (l : List ℝ) (i : ℕ) (hi : i < l.length)
    (hmax : ∀ t, t < l.length → t ≠ i → l.getD t 0 < l.getD i 0) :
    argmaxFirst l = i := by
  have hl : l ≠ [] := by
    intro he
    subst he
    simp at hi
  by_contra hne
  have h1 : l.getD (argmaxFirst l) 0 < l.getD i 0 :=
    hmax (argmaxFirst l) (argmaxFirst_lt_length l hl) hne
  have h2 : l.getD i 0 ≤ l.getD (argmaxFirst l) 0 := getD_le_argmaxFirst l i hi
  exact absurd h1 (not_lt.2 h2)

/-! ### The positive-frequency bin grid -/

lemma fftfreqVal_succ_le (N : ℕ) (d : ℝ) (k : ℕ) (hk : k + 1 ≤ (N - 1) / 2) :
    fftfreqVal N d (k + 1) = ((k : ℝ) + 1) / (d * N) := by
  unfold fftfreqVal
  rw [if_pos hk]
  push_cast
  ring_nf

lemma fftfreqVal_zero (N : ℕ) (d : ℝ) : fftfreqVal N d 0 = 0 := by
  unfold fftfreqVal
  rw [if_pos (Nat.zero_le _)]
  simp

lemma fftfreqVal_neg_branch (N : ℕ) (d : ℝ) (hd : 0 < d) (k : ℕ)
    (hk : ¬ k ≤ (N - 1) / 2) (hkN : k < N) : fftfreqVal N d k < 0 := by
  unfold fftfreqVal
  rw [if_neg hk]
  apply div_neg_of_neg_of_pos
  · have : (k : ℝ) < (N : ℝ) := by exact_mod_cast hkN
    linarith
  · have hN : 0 < (N : ℝ) := by
      have : 0 < N := by omega
      exact_mod_cast this
    positivity

/-- For a positive sampling interval `d`, the strictly positive bins of the
`fftfreq` grid are exactly the indices `1 .. (N-1)/2`, in order. -/
lemma posKs_eq (N : ℕ) (d : ℝ) (hd : 0 < d) :
    posKs N d = (List.range ((N - 1) / 2)).map Nat.succ := by
  unfold posKs
  rcases Nat.eq_zero_or_pos N with h0 | hNpos
  · subst h0
    rfl
  · set M := (N - 1) / 2 with hM
    have hMsucc : M + 1 ≤ N := by omega
    have hsplit : List.range N =
        List.range (M + 1) ++ (List.range (N - (M + 1))).map (fun i => (M + 1) + i) := by
      rw [← List.range_add]
      congr 1
      omega
    rw [hsplit, List.filter_append]
    have hpiece2 : ((List.range (N - (M + 1))).map (fun i => (M + 1) + i)).filter
        (fun k => decide (0 < fftfreqVal N d k)) = [] := by
      rw [List.filter_eq_nil_iff]
      intro k hk
      rw [List.mem_map] at hk
      obtain ⟨i, hi, hik⟩ := hk
      rw [List.mem_range] at hi
      have hkM : ¬ k ≤ M := by omega
      have hkN : k < N := by omega
      simp only [decide_eq_true_eq, not_lt]
      exact le_of_lt (fftfreqVal_neg_branch N d hd k hkM hkN)
    have hpiece1 : (List.range (M + 1)).filter (fun k => decide (0 < fftfreqVal N d k)) =
        (List.range M).map Nat.succ := by
      rw [List.range_succ_eq_map, List.filter_cons,
        if_neg (by simp [fftfreqVal_zero]), List.filter_map]
      congr 1
      rw [List.filter_eq_self]
      intro i hi
      rw [List.mem_range] at hi
      have hle : i + 1 ≤ M := hi
      have hpos : 0 < fftfreqVal N d (i + 1) := by
        rw [fftfreqVal_succ_le N d i hle]
        have hN : (0 : ℝ) < (N : ℝ) := by exact_mod_cast hNpos
        positivity
      simpa [Function.comp, Nat.succ_eq_add_one] using hpos
    rw [hpiece1, hpiece2, List.append_nil]

/-- Positive-bin frequencies in closed form, for `d > 0`. -/
lemma gaitFreqList_eq (N : ℕ) (d : ℝ) (hd : 0 < d) :
    gaitFreqList N d =
      (List.range ((N - 1) / 2)).map (fun (i : ℕ) => ((i : ℝ) + 1) / (d * N)) := by
  unfold gaitFreqList
  rw [posKs_eq N d hd, List.map_map]
  apply List.map_congr_left
  intro i hi
  rw [List.mem_range] at hi
  simp only [Function.comp, Nat.succ_eq_add_one]
  exact fftfreqVal_succ_le N d i hi

/-- Positive-bin spectral magnitudes in closed form, for `d > 0`. -/
lemma gaitMagList_eq (N : ℕ) (d : ℝ) (hd : 0 < d) (mags : List ℝ) :
    gaitMagList N d mags =
      (List.range ((N - 1) / 2)).map (fun i => Complex.abs (dft mags (i + 1))) := by
  unfold gaitMagList
  rw [posKs_eq N d hd, List.map_map]
  apply List.map_congr_left
  intro i hi
  simp [Function.comp, Nat.succ_eq_add_one]

/-! ### Claim C5: dominant-bin selection -/

/-- Claim C5: when `analyze_gait` succeeds, its dominant frequency is the
entry of the strictly-positive-frequency bin list selected by
`np.argmax` over the corresponding spectral magnitudes: it is strictly
positive, its magnitude is at least every positive bin's magnitude, every
earlier (lower-frequency, as the bin list is strictly increasing) bin has
strictly smaller magnitude, and the cadence is the dominant frequency
times 60.  When no strictly positive bin exists the result is
InsufficientData (app.py lines 278-293). -/
theorem C5_dominant_bin_selection (rows : List GaitRow) :
    (∀ comps, accComponents rows = some comps →
        gaitMagList (accMagnitudes comps).length (1 / (1 / gaitDt rows))
          (accMagnitudes comps) = [] →
        analyze_gait rows = none) ∧
      (∀ r, analyze_gait rows = some r →
        ∃ comps, accComponents rows = some comps ∧
          (gaitMagList (accMagnitudes comps).length (1 / (1 / gaitDt rows))
              (accMagnitudes comps) ≠ [] ∧
            argmaxFirst (gaitMagList (accMagnitudes comps).length (1 / (1 / gaitDt rows))
                (accMagnitudes comps)) <
              (gaitFreqList (accMagnitudes comps).length (1 / (1 / gaitDt rows))).length ∧
            r.dominant_frequency =
              (gaitFreqList (accMagnitudes comps).length (1 / (1 / gaitDt rows))).getD
                (argmaxFirst (gaitMagList (accMagnitudes comps).length
                  (1 / (1 / gaitDt rows)) (accMagnitudes comps))) 0 ∧
            0 < r.dominant_frequency ∧
            (∀ t, t < (gaitMagList (accMagnitudes comps).length (1 / (1 / gaitDt rows))
                (accMagnitudes comps)).length →
              (gaitMagList (accMagnitudes comps).length (1 / (1 / gaitDt rows))
                  (accMagnitudes comps)).getD t 0 ≤
                (gaitMagList (accMagnitudes comps).length (1 / (1 / gaitDt rows))
                    (accMagnitudes comps)).getD
                  (argmaxFirst (gaitMagList (accMagnitudes comps).length
                    (1 / (1 / gaitDt rows)) (accMagnitudes comps))) 0) ∧
            (∀ t, t < argmaxFirst (gaitMagList (accMagnitudes comps).length
                (1 / (1 / gaitDt rows)) (accMagnitudes comps)) →
              (gaitMagList (accMagnitudes comps).length (1 / (1 / gaitDt rows))
                  (accMagnitudes comps)).getD t 0 <
                (gaitMagList (accMagnitudes comps).length (1 / (1 / gaitDt rows))
                    (accMagnitudes comps)).getD
                  (argmaxFirst (gaitMagList (accMagnitudes comps).length
                    (1 / (1 / gaitDt rows)) (accMagnitudes comps))) 0) ∧
            List.Pairwise (fun a b => a < b)
              (gaitFreqList (accMagnitudes comps).length (1 / (1 / gaitDt rows))) ∧
            r.cadence = r.dominant_frequency * 60)) := by
  constructor
  · intro comps hc hemp
    unfold analyze_gait
    split_ifs with h1 h2 h3
    · rfl
    · rfl
    · rfl
    · rw [hc]
      simp only [hemp, List.length_nil, if_pos rfl]
      simp
  · intro r h
    unfold analyze_gait at h
    split_ifs at h with h1 h2 h3
    have hdt : 0 < gaitDt rows := not_le.1 h3
    cases hc : accComponents rows with
    | none => rw [hc] at h; simp at h
    | some comps =>
      rw [hc] at h
      simp only [] at h
      refine ⟨comps, rfl, ?_⟩
      set N := (accMagnitudes comps).length with hN
      set dd := 1 / (1 / gaitDt rows) with hdd
      have hdeq : dd = gaitDt rows := one_div_one_div _
      set mags := gaitMagList N dd (accMagnitudes comps) with hmagsdef
      set freqs := gaitFreqList N dd with hfreqsdef
      by_cases hemp : mags.length = 0
      · rw [if_pos hemp] at h
        exact absurd h (by simp)
      · rw [if_neg hemp] at h
        have hne : mags ≠ [] := by
          intro hnil
          rw [hnil] at hemp
          exact hemp rfl
        have hi : argmaxFirst mags < mags.length := argmaxFirst_lt_length mags hne
        have hlen : freqs.length = mags.length := by
          rw [hfreqsdef, hmagsdef]
          unfold gaitFreqList gaitMagList
          rw [List.length_map, List.length_map]
        have hif : argmaxFirst mags < freqs.length := by rw [hlen]; exact hi
        have hr : r = ⟨freqs.getD (argmaxFirst mags) 0 * 60,
            freqs.getD (argmaxFirst mags) 0, 1 / gaitDt rows, N⟩ :=
          (Option.some.inj h).symm
        have hdompos : 0 < freqs.getD (argmaxFirst mags) 0 := by
          have hmem : freqs.getD (argmaxFirst mags) 0 ∈ freqs := by
            rw [List.getD_eq_getElem _ _ hif]
            exact List.getElem_mem hif
          have hpos : ∀ v ∈ freqs, 0 < v := by
            intro v hv
            rw [hfreqsdef] at hv
            unfold gaitFreqList at hv
            rw [List.mem_map] at hv
            obtain ⟨k, hk, hkval⟩ := hv
            unfold posKs at hk
            rw [List.mem_filter] at hk
            have := of_decide_eq_true hk.2
            rw [← hkval]
            exact this
          exact hpos _ hmem
        have hNpos : 0 < N := by
          by_contra hN0
          have hN0 : N = 0 := by omega
          have : mags = [] := by
            rw [hmagsdef]
            unfold gaitMagList posKs
            rw [hN0]
            rfl
          exact hne this
        have hpw : List.Pairwise (fun a b => a < b) freqs := by
          rw [hfreqsdef, hdeq, gaitFreqList_eq N _ hdt]
          rw [List.pairwise_map]
          have hbase := List.pairwise_lt_range ((N - 1) / 2)
          refine List.Pairwise.imp ?_ hbase
          intro a b hab
          have hdN : 0 < gaitDt rows * (N : ℝ) := by
            have : (0 : ℝ) < (N : ℝ) := by exact_mod_cast hNpos
            positivity
          rw [div_lt_div_iff_of_pos_right hdN]
          have : (a : ℝ) < (b : ℝ) := by exact_mod_cast hab
          linarith
        refine ⟨hne, hif, ?_, ?_, ?_, ?_, hpw, ?_⟩
        · rw [hr]
        · rw [hr]; exact hdompos
        · intro t ht
          exact getD_le_argmaxFirst mags t ht
        · intro t ht
          exact getD_lt_argmaxFirst mags t ht
        · rw [hr]

/-- Witness for C10: two valid records at timestamps 0 and 1 with zero
acceleration yield InsufficientData. -/
theorem C10_two_point_history_witness :
    analyze_gait [⟨some 0, some 0, some 0, some 0⟩,
        ⟨some 1, some 0, some 0, some 0⟩] = none :=
  (C10_two_point_history 0 1 0 0 0 0 0 0 (by norm_num)).1

/-! ### DFT evaluation machinery -/

/-- Geometric sum of `N`-th roots of unity: `N` when `N` divides `m`,
zero otherwise. -/
lemma expSum_eq (N : ℕ) (hN : 0 < N) (m : ℤ) :
    ∑ n ∈ Finset.range N,
        Complex.exp (2 * (Real.pi : ℂ) * Complex.I * m * n / N) =
      if (N : ℤ) ∣ m then (N : ℂ) else 0 := by
  have hNc : (N : ℂ) ≠ 0 := Nat.cast_ne_zero.2 hN.ne'
  set w := Complex.exp (2 * (Real.pi : ℂ) * Complex.I * m / N) with hw
  have hterm : ∀ n ∈ Finset.range N,
      Complex.exp (2 * (Real.pi : ℂ) * Complex.I * m * n / N) = w ^ n := by
    intro n _
    rw [hw, ← Complex.exp_nat_mul]
    congr 1
    field_simp
    ring
  rw [Finset.sum_congr rfl hterm]
  by_cases hdvd : (N : ℤ) ∣ m
  · obtain ⟨t, ht⟩ := hdvd
    have hw1 : w = 1 := by
      rw [hw]
      have harg : 2 * (Real.pi : ℂ) * Complex.I * m / N = t * (2 * Real.pi * Complex.I) := by
        rw [ht]
        push_cast
        field_simp
        ring
      rw [harg, Complex.exp_int_mul_two_pi_mul_I]
    rw [if_pos ⟨t, ht⟩, hw1]
    simp
  · have hwne : w ≠ 1 := by
      intro hw1
      rw [hw, Complex.exp_eq_one_iff] at hw1
      obtain ⟨t, htt⟩ := hw1
      apply hdvd
      have h2pi : (2 * (Real.pi : ℂ) * Complex.I) ≠ 0 := by
        simp [Complex.I_ne_zero, Real.pi_ne_zero, Complex.ofReal_ne_zero]
      have hmc : (m : ℂ) = t * N := by
        have hmul : 2 * (Real.pi : ℂ) * Complex.I * m = t * (2 * Real.pi * Complex.I) * N := by
          field_simp at htt
          linear_combination htt
        have : (m : ℂ) * (2 * (Real.pi : ℂ) * Complex.I) =
            (t * N) * (2 * (Real.pi : ℂ) * Complex.I) := by linear_combination hmul
        exact mul_right_cancel₀ h2pi this
      have hmz : m = t * N := by exact_mod_cast hmc
      exact ⟨t, by rw [hmz, mul_comm]⟩
    rw [if_neg hdvd, geom_sum_eq hwne]
    have hwN : w ^ N = 1 := by
      rw [hw, ← Complex.exp_nat_mul]
      have harg : (N : ℂ) * (2 * (Real.pi : ℂ) * Complex.I * m / N) =
          m * (2 * Real.pi * Complex.I) := by
        field_simp
        ring
      rw [harg, Complex.exp_int_mul_two_pi_mul_I]
    rw [hwN]
    simp

lemma getD_map_range (N : ℕ) (f : ℕ → ℝ) (n : ℕ) (hn : n < N) :
    ((List.range N).map f).getD n 0 = f n := by
  have hn2 : n < ((List.range N).map f).length := by
    rw [List.length_map, List.length_range]
    exact hn
  rw [List.getD_eq_getElem _ _ hn2]
  simp

/-- The DFT of a list given as a map over `range N`, as a closed sum. -/
lemma dft_map_range (N : ℕ) (f : ℕ → ℝ) (k : ℕ) :
    dft ((List.range N).map f) k =
      ∑ n ∈ Finset.range N,
        (f n : ℂ) *
          Complex.exp (-(2 * (Real.pi : ℂ) * Complex.I * k * n) / N) := by
  unfold dft
  rw [List.length_map, List.length_range]
  apply Finset.sum_congr rfl
  intro n hn
  rw [Finset.mem_range] at hn
  rw [getD_map_range N f n hn]

/-- The DFT of the all-zero sequence vanishes at every bin. -/
lemma dft_zero_fun (N : ℕ) (z : ℕ → ℝ) (hz : ∀ n, z n = 0) (k : ℕ) :
    dft ((List.range N).map z) k = 0 := by
  rw [dft_map_range]
  apply Finset.sum_eq_zero
  intro n _
  rw [hz n]
  simp

/-- DFT of a constant-offset sinusoid sitting exactly on bin `j`: every
strictly positive bin below `N - j` vanishes except bin `j`, whose value is
`-B N i / 2`. -/
lemma dft_sinusoid (N j k : ℕ) (C B : ℝ) (hNpos : 0 < N)
    (hj1 : 1 ≤ j) (hk1 : 1 ≤ k) (hkN : k < N) (hjk : j + k < N) :
    dft ((List.range N).map
        (fun (n : ℕ) => C + B * Real.sin (2 * Real.pi * (j : ℝ) * (n : ℝ) / (N : ℝ)))) k =
      if k = j then -((B : ℂ) * N * Complex.I / 2) else 0 := by
  have hNc : (N : ℂ) ≠ 0 := Nat.cast_ne_zero.2 hNpos.ne'
  rw [dft_map_range]
  have hterm : ∀ n ∈ Finset.range N,
      ((C + B * Real.sin (2 * Real.pi * (j : ℝ) * (n : ℝ) / (N : ℝ)) : ℝ) : ℂ) *
          Complex.exp (-(2 * (Real.pi : ℂ) * Complex.I * k * n) / N) =
        (C : ℂ) * Complex.exp (2 * (Real.pi : ℂ) * Complex.I * ((-(k : ℤ) : ℤ) : ℂ) * n / N)
          + ((B : ℂ) * Complex.I / 2) *
              (Complex.exp (2 * (Real.pi : ℂ) * Complex.I *
                  ((-(j : ℤ) - k : ℤ) : ℂ) * n / N)
                - Complex.exp (2 * (Real.pi : ℂ) * Complex.I *
                    (((j : ℤ) - k : ℤ) : ℂ) * n / N)) := by
    intro n _
    rw [Complex.ofReal_add, Complex.ofReal_mul, Complex.ofReal_sin]
    set z : ℂ := ((2 * Real.pi * (j : ℝ) * (n : ℝ) / (N : ℝ) : ℝ) : ℂ) with hzdef
    set E : ℂ := Complex.exp (-(2 * (Real.pi : ℂ) * Complex.I * k * n) / N) with hEdef
    have hE1 : Complex.exp (-z * Complex.I) * E =
        Complex.exp (2 * (Real.pi : ℂ) * Complex.I * ((-(j : ℤ) - k : ℤ) : ℂ) * n / N) := by
      rw [hEdef, hzdef, ← Complex.exp_add]
      congr 1
      push_cast
      field_simp
      ring
    have hE2 : Complex.exp (z * Complex.I) * E =
        Complex.exp (2 * (Real.pi : ℂ) * Complex.I * (((j : ℤ) - k : ℤ) : ℂ) * n / N) := by
      rw [hEdef, hzdef, ← Complex.exp_add]
      congr 1
      push_cast
      field_simp
      ring
    have hE0 : E = Complex.exp (2 * (Real.pi : ℂ) * Complex.I *
        ((-(k : ℤ) : ℤ) : ℂ) * n / N) := by
      rw [hEdef]
      congr 1
      push_cast
      ring
    rw [← hE0, ← hE1, ← hE2]
    have hs : Complex.sin z =
        (Complex.exp (-z * Complex.I) - Complex.exp (z * Complex.I)) * Complex.I / 2 := by
      linear_combination (Complex.two_sin z) / 2
    rw [hs]
    ring
  rw [Finset.sum_congr rfl hterm, Finset.sum_add_distrib, ← Finset.mul_sum,
    ← Finset.mul_sum, Finset.sum_sub_distrib,
    expSum_eq N hNpos (-(k : ℤ)), expSum_eq N hNpos (-(j : ℤ) - k),
    expSum_eq N hNpos ((j : ℤ) - k)]
  have hjint : (0 : ℤ) < j := by exact_mod_cast hj1
  have hkint : (0 : ℤ) < k := by exact_mod_cast hk1
  have hkNint : (k : ℤ) < N := by exact_mod_cast hkN
  have hjkint : (j : ℤ) + k < N := by exact_mod_cast hjk
  have h1 : ¬ (N : ℤ) ∣ -(k : ℤ) := by
    rw [dvd_neg]
    intro hdvd
    have := Int.le_of_dvd hkint hdvd
    omega
  have h2 : ¬ (N : ℤ) ∣ (-(j : ℤ) - k) := by
    rw [show -(j : ℤ) - k = -((j : ℤ) + k) by ring, dvd_neg]
    intro hdvd
    have := Int.le_of_dvd (by omega) hdvd
    omega
  rw [if_neg h1, if_neg h2]
  by_cases hkj : k = j
  · subst hkj
    rw [if_pos (by simp), if_pos rfl]
    ring
  · have h3 : ¬ (N : ℤ) ∣ ((j : ℤ) - k) := by
      intro hdvd
      have habs : (N : ℤ) ∣ |(j : ℤ) - k| := (dvd_abs _ _).2 hdvd
      have hne : (j : ℤ) - k ≠ 0 := by
        intro hz0
        apply hkj
        have : (j : ℤ) = k := by omega
        exact_mod_cast this.symm
      have hpos : 0 < |(j : ℤ) - k| := abs_pos.2 hne
      have hle := Int.le_of_dvd hpos habs
      have hlt : |(j : ℤ) - k| < N := by
        rw [abs_sub_lt_iff]
        omega
      omega
    rw [if_neg h3, if_neg hkj]
    ring

/-! ### Uniformly sampled synthetic histories -/

/-- A fully valid history row at uniform time `n / fs` whose acceleration
is `(0, 0, z n)`. -/
noncomputable def rowFn (fs : ℝ) (z : ℕ → ℝ) (n : ℕ) : GaitRow :=
  ⟨some ((n : ℝ) / fs), some 0, some 0, some (z n)⟩

lemma zipWith_sub_range_aux (g : ℕ → ℝ) :
    ∀ (n s : ℕ), List.zipWith (fun a b => a - b) ((List.range' (s + 1) n).map g)
      ((List.range' s (n + 1)).map g) = (List.range' s n).map (fun i => g (i + 1) - g i) := by
  intro n
  induction n with
  | zero => intro s; rfl
  | succ n ih =>
    intro s
    show List.zipWith (fun a b => a - b)
        (((s + 1) :: List.range' (s + 1 + 1) n).map g)
        ((s :: List.range' (s + 1) (n + 1)).map g) =
      ((s :: List.range' (s + 1) n).map (fun i => g (i + 1) - g i))
    rw [List.map_cons, List.map_cons, List.map_cons, List.zipWith_cons_cons]
    congr 1
    exact ih (s + 1)

lemma dts_rowFn (N : ℕ) (g : ℕ → ℝ) :
    List.zipWith (fun a b => a - b) (((List.range N).map g).tail) ((List.range N).map g)
      = (List.range (N - 1)).map (fun i => g (i + 1) - g i) := by
  cases N with
  | zero => rfl
  | succ m =>
    rw [List.range_eq_range' (m + 1), show (m + 1) - 1 = m from rfl,
      List.range_eq_range' m]
    exact zipWith_sub_range_aux g m 0

lemma gaitTimestamps_rowFn (N : ℕ) (fs : ℝ) (z : ℕ → ℝ) :
    gaitTimestamps ((List.range N).map (rowFn fs z)) =
      (List.range N).map (fun (n : ℕ) => (n : ℝ) / fs) := by
  unfold gaitTimestamps rowFn
  rw [List.filterMap_map]
  exact List.filterMap_eq_map (fun (n : ℕ) => (n : ℝ) / fs) ▸ rfl

lemma gaitDt_rowFn (N : ℕ) (fs : ℝ) (z : ℕ → ℝ) (hN : 2 ≤ N) (hfs : 0 < fs) :
    gaitDt ((List.range N).map (rowFn fs z)) = 1 / fs := by
  unfold gaitDt
  simp only [gaitTimestamps_rowFn N fs z]
  rw [dts_rowFn N (fun (n : ℕ) => (n : ℝ) / fs)]
  have hpt : ∀ i ∈ List.range (N - 1),
      (fun i => ((i + 1 : ℕ) : ℝ) / fs - (i : ℝ) / fs) i = (fun _ => 1 / fs) i := by
    intro i _
    push_cast
    field_simp
  rw [List.map_congr_left hpt, List.map_const', List.length_range, List.sum_replicate,
    List.length_replicate, nsmul_eq_mul]
  have hne : ((N - 1 : ℕ) : ℝ) ≠ 0 := by
    have h1 : 1 ≤ N - 1 := by omega
    have h2 : (1 : ℝ) ≤ ((N - 1 : ℕ) : ℝ) := by exact_mod_cast h1
    linarith
  rw [mul_comm ((N - 1 : ℕ) : ℝ) (1 / fs), mul_div_assoc, div_self hne, mul_one]

lemma accComponents_rowFn (fs : ℝ) (z : ℕ → ℝ) (l : List ℕ) :
    accComponents (l.map (rowFn fs z)) =
      some (l.map (fun n => ((0 : ℝ), (0 : ℝ), z n))) := by
  induction l with
  | nil => rfl
  | cons a l ih => simp [accComponents, rowFn, ih]

lemma accMagnitudes_z (N : ℕ) (z : ℕ → ℝ) (hz : ∀ n, 0 ≤ z n) :
    accMagnitudes ((List.range N).map (fun n => ((0 : ℝ), (0 : ℝ), z n))) =
      (List.range N).map z := by
  unfold accMagnitudes
  rw [List.map_map]
  apply List.map_congr_left
  intro n _
  simp only [Function.comp]
  rw [show (0 : ℝ) ^ 2 + 0 ^ 2 + (z n) ^ 2 = (z n) ^ 2 by ring, Real.sqrt_sq (hz n)]

/-- Full evaluation of `analyze_gait` on a uniformly sampled nonnegative
magnitude sequence: the report carries sampling frequency `fs`, `N` data
points, and the dominant frequency `(argmax + 1) * fs / N` picked by
`np.argmax` over the positive-bin spectral magnitudes. -/
lemma analyze_gait_uniform (N : ℕ) (fs : ℝ) (z : ℕ → ℝ) (hN : 2 ≤ N) (hfs : 0 < fs)
    (hz : ∀ n, 0 ≤ z n) (hM : 1 ≤ (N - 1) / 2) :
    analyze_gait ((List.range N).map (rowFn fs z)) =
      some ⟨((argmaxFirst ((List.range ((N - 1) / 2)).map
            (fun i => Complex.abs (dft ((List.range N).map z) (i + 1)))) : ℝ) + 1)
          * fs / N * 60,
        ((argmaxFirst ((List.range ((N - 1) / 2)).map
            (fun i => Complex.abs (dft ((List.range N).map z) (i + 1)))) : ℝ) + 1)
          * fs / N,
        fs, N⟩ := by
  have hNr : (0 : ℝ) < (N : ℝ) := by
    have : 0 < N := by omega
    exact_mod_cast this
  have hlen : ((List.range N).map (rowFn fs z)).length = N := by
    rw [List.length_map, List.length_range]
  have htslen : (gaitTimestamps ((List.range N).map (rowFn fs z))).length = N := by
    rw [gaitTimestamps_rowFn N fs z, List.length_map, List.length_range]
  have hdt : gaitDt ((List.range N).map (rowFn fs z)) = 1 / fs :=
    gaitDt_rowFn N fs z hN hfs
  have hdtpos : 0 < gaitDt ((List.range N).map (rowFn fs z)) := by
    rw [hdt]
    positivity
  unfold analyze_gait
  rw [if_neg (by rw [hlen]; omega), if_neg (by rw [htslen]; omega),
    if_neg (not_le.2 hdtpos), accComponents_rowFn fs z (List.range N)]
  simp only [accMagnitudes_z N z hz, List.length_map, List.length_range, hdt,
    one_div_one_div]
  have hd1 : (0 : ℝ) < 1 / fs := by positivity
  rw [gaitMagList_eq N (1 / fs) hd1, gaitFreqList_eq N (1 / fs) hd1]
  set mlist := (List.range ((N - 1) / 2)).map
    (fun i => Complex.abs (dft ((List.range N).map z) (i + 1))) with hmlist
  have hmlen : mlist.length = (N - 1) / 2 := by
    rw [hmlist, List.length_map, List.length_range]
  rw [if_neg (by rw [hmlen]; omega)]
  have hmne : mlist ≠ [] := by
    intro hnil
    rw [hnil] at hmlen
    simp at hmlen
    omega
  have hidx : argmaxFirst mlist < (N - 1) / 2 := by
    rw [← hmlen]
    exact argmaxFirst_lt_length mlist hmne
  rw [getD_map_range ((N - 1) / 2) _ _ hidx]
  have hfreq : ((argmaxFirst mlist : ℝ) + 1) / (1 / fs * N) =
      ((argmaxFirst mlist : ℝ) + 1) * fs / N := by
    field_simp
  rw [hfreq]

lemma argmaxFirst_singleton (x : ℝ) : argmaxFirst [x] = 0 := by
  unfold argmaxFirst
  simp [List.getD]

/-- A three-row uniform history with constant magnitude 1 at 1 Hz. -/
noncomputable def rows3 : List GaitRow := (List.range 3).map (rowFn 1 (fun _ => 1))

/-- The cadence report `analyze_gait` produces on `rows3`. -/
noncomputable def rpt3 : GaitReport := ⟨20, 1 / 3, 1, 3⟩

lemma analyze_gait_rows3 : analyze_gait rows3 = some rpt3 := by
  unfold rows3
  rw [analyze_gait_uniform 3 1 (fun _ => 1) (by norm_num) (by norm_num)
    (fun _ => by norm_num) (by norm_num)]
  have hone : argmaxFirst ((List.range ((3 - 1) / 2)).map
      (fun i => Complex.abs (dft ((List.range 3).map (fun _ => (1 : ℝ))) (i + 1)))) = 0 := by
    rw [show (3 - 1) / 2 = 1 from rfl, show List.range 1 = [0] from rfl, List.map_singleton]
    exact argmaxFirst_singleton _
  rw [hone]
  unfold rpt3
  norm_num

/-- Witness for C5: on the concrete history `rows3` the estimator succeeds
and the report obeys the selection contract. -/
theorem C5_dominant_bin_selection_witness :
    analyze_gait rows3 = some rpt3 ∧ 0 < rpt3.dominant_frequency ∧
      rpt3.cadence = rpt3.dominant_frequency * 60 := by
  obtain ⟨comps, hacc, hne, hif, hdomeq, hdompos, hle, hlt, hpw, hcad⟩ :=
    (C5_dominant_bin_selection rows3).2 rpt3 analyze_gait_rows3
  exact ⟨analyze_gait_rows3, hdompos, hcad⟩

/-! ### Claim C8: sinusoid round-trip -/

/-- History built from a pure sinusoid of frequency `f0` on the z axis,
uniformly sampled at rate `fs` over `N` points (all records valid). -/
noncomputable def sinusoidRows (N : ℕ) (fs f0 : ℝ) : List GaitRow :=
  (List.range N).map (rowFn fs (fun n => Real.sin (2 * Real.pi * f0 * ((n : ℝ) / fs))))

lemma getD_replicate_zero (m j : ℕ) : (List.replicate m (0 : ℝ)).getD j 0 = 0 := by
  by_cases hj : j < m
  · rw [List.getD_eq_getElem _ _ (by simpa using hj)]
    simp
  · rw [List.getD_eq_default _ _ (by simpa using not_lt.1 hj)]

lemma argmaxFirst_replicate_zero (m : ℕ) : argmaxFirst (List.replicate m (0 : ℝ)) = 0 := by
  cases m with
  | zero => rfl
  | succ m =>
    rw [List.replicate_succ]
    unfold argmaxFirst
    rw [if_neg]
    intro hlt
    rw [show (List.replicate m (0:ℝ)).getD (argmaxFirst (List.replicate m (0:ℝ))) 0 = 0 from
      getD_replicate_zero m _] at hlt
    exact absurd hlt (lt_irrefl 0)

/-- Claim C8 counterexample: the pure sinusoid `sin(2 pi t)` of frequency
`f0 = 1` sampled at `fs = 1` over `N = 64` points (an aliased sinusoid:
`f0 = fs`) samples to the all-zero sequence; `analyze_gait` succeeds and
returns dominant frequency `fs / N = 1/64`, which is `63/64` away from
`f0 = 1` — far more than one bin width `1/64`.  So the claim fails as
stated for histories whose sinusoid frequency is aliased. -/
theorem C8_counterexample :
    ∃ r, analyze_gait (sinusoidRows 64 1 1) = some r ∧
      r.sampling_frequency = 1 ∧ r.data_points = 64 ∧
      r.dominant_frequency = 1 / 64 ∧
      ¬ |r.dominant_frequency - 1| ≤ 1 / 64 := by
  have hz0 : ∀ n : ℕ, Real.sin (2 * Real.pi * 1 * ((n : ℝ) / 1)) = 0 := by
    intro n
    rw [show 2 * Real.pi * 1 * ((n : ℝ) / 1) = ((2 * n : ℕ) : ℝ) * Real.pi by push_cast; ring]
    exact Real.sin_nat_mul_pi (2 * n)
  unfold sinusoidRows
  rw [analyze_gait_uniform 64 1 _ (by norm_num) (by norm_num)
    (fun n => by rw [hz0 n]) (by norm_num)]
  have hdft := dft_zero_fun 64 (fun n => Real.sin (2 * Real.pi * 1 * ((n : ℝ) / 1))) hz0
  have hml : (List.range ((64 - 1) / 2)).map
      (fun (i : ℕ) => Complex.abs (dft ((List.range 64).map
        (fun (n : ℕ) => Real.sin (2 * Real.pi * 1 * ((n : ℝ) / 1)))) (i + 1))) =
      List.replicate ((64 - 1) / 2) (0 : ℝ) := by
    have h1 : (List.range ((64 - 1) / 2)).map (fun (_ : ℕ) => (0 : ℝ)) =
        List.replicate ((64 - 1) / 2) (0 : ℝ) := by
      rw [List.map_const', List.length_range]
    rw [← h1]
    apply List.map_congr_left
    intro i _
    rw [hdft (i + 1)]
    simp
  rw [hml, argmaxFirst_replicate_zero]
  refine ⟨_, rfl, rfl, rfl, by norm_num, ?_⟩
  have habs : |(((0 : ℕ) : ℝ) + 1) * 1 / (64 : ℕ) - 1| = 63 / 64 := by
    rw [show (((0 : ℕ) : ℝ) + 1) * 1 / ((64 : ℕ) : ℝ) - 1 = -(63 / 64) by push_cast; ring,
      abs_neg, abs_of_pos (by norm_num)]
  rw [habs]
  norm_num

/-- History whose acceleration-magnitude sequence is the DC-offset pure
sinusoid `C + B sin(2 pi f0 t)` with bin-centered frequency
`f0 = j * fs / N`, uniformly sampled at rate `fs` over `N` points. -/
noncomputable def offsetSinusoidRows (N j : ℕ) (fs C B : ℝ) : List GaitRow :=
  (List.range N).map (rowFn fs
    (fun n => C + B * Real.sin (2 * Real.pi * ((j : ℝ) * fs / N) * ((n : ℝ) / fs))))

/-- Claim C8, amended: for a history built from the offset pure sinusoid
`C + B sin(2 pi f0 t)` with `B > 0`, `C >= B`, bin-centered frequency
`f0 = j * fs / N` strictly below Nyquist (`1 <= j`, `2j < N`), sampled
uniformly at rate `fs > 0` over `N >= 64` points, the estimator returns a
report whose dominant frequency equals `f0` exactly — in particular it is
within one bin width `fs/N` of `f0` — with `cadence = f0 * 60`.  (The
original unrestricted claim fails for aliased sinusoids, and for a
zero-offset axis sinusoid the magnitude sequence is `|sin|`, which doubles
the frequency; the counterexample forces these restrictions.) -/
theorem C8_sinusoid_roundtrip (N j : ℕ) (fs C B : ℝ)
    (hN : 64 ≤ N) (hj : 1 ≤ j) (hjN : 2 * j < N) (hfs : 0 < fs)
    (hB : 0 < B) (hCB : B ≤ C) :
    ∃ r, analyze_gait (offsetSinusoidRows N j fs C B) = some r ∧
      r.dominant_frequency = (j : ℝ) * fs / N ∧
      |r.dominant_frequency - (j : ℝ) * fs / N| ≤ fs / N ∧
      r.cadence = (j : ℝ) * fs / N * 60 ∧
      r.sampling_frequency = fs ∧
      r.data_points = N := by
  have hNpos : 0 < N := by omega
  have hNr : (0 : ℝ) < (N : ℝ) := by exact_mod_cast hNpos
  have hrows : offsetSinusoidRows N j fs C B = (List.range N).map (rowFn fs
      (fun (n : ℕ) => C + B * Real.sin (2 * Real.pi * (j : ℝ) * (n : ℝ) / (N : ℝ)))) := by
    unfold offsetSinusoidRows
    apply List.map_congr_left
    intro n _
    unfold rowFn
    simp only []
    have harg : 2 * Real.pi * ((j : ℝ) * fs / N) * ((n : ℝ) / fs) =
        2 * Real.pi * (j : ℝ) * (n : ℝ) / (N : ℝ) := by
      field_simp
      ring
    rw [harg]
  have hz : ∀ n : ℕ, 0 ≤ C + B * Real.sin (2 * Real.pi * (j : ℝ) * (n : ℝ) / (N : ℝ)) := by
    intro n
    have hs := Real.neg_one_le_sin (2 * Real.pi * (j : ℝ) * (n : ℝ) / (N : ℝ))
    nlinarith
  rw [hrows, analyze_gait_uniform N fs _ (by omega) hfs hz (by omega)]
  set M := (N - 1) / 2 with hMdef
  set mlist := (List.range M).map
    (fun i => Complex.abs (dft ((List.range N).map
      (fun (n : ℕ) => C + B * Real.sin (2 * Real.pi * (j : ℝ) * (n : ℝ) / (N : ℝ)))) (i + 1)))
    with hmlistdef
  have hjM : j ≤ M := by omega
  have hvals : ∀ i, i < M → mlist.getD i 0 = if i + 1 = j then B * N / 2 else 0 := by
    intro i hi
    rw [hmlistdef, getD_map_range M _ i hi]
    have hdftv := dft_sinusoid N j (i + 1) C B hNpos hj (by omega) (by omega) (by omega)
    rw [hdftv]
    by_cases hij : i + 1 = j
    · rw [if_pos hij, if_pos hij]
      rw [Complex.abs.map_neg, map_div₀, map_mul, map_mul, Complex.abs_I,
        Complex.abs_ofReal, Complex.abs_natCast, abs_of_pos hB]
      rw [show Complex.abs 2 = 2 by
        rw [show (2 : ℂ) = ((2 : ℕ) : ℂ) by norm_num, Complex.abs_natCast]
        norm_num]
      ring
    · rw [if_neg hij, if_neg hij]
      simp
  have hmlen : mlist.length = M := by
    rw [hmlistdef, List.length_map, List.length_range]
  have hargmax : argmaxFirst mlist = j - 1 := by
    apply argmaxFirst_eq_of_strict_max
    · rw [hmlen]; omega
    · intro t ht htne
      rw [hmlen] at ht
      rw [hvals t ht, hvals (j - 1) (by omega)]
      rw [if_neg (by omega), if_pos (by omega)]
      positivity
  have hdom : ((argmaxFirst mlist : ℝ) + 1) * fs / N = (j : ℝ) * fs / N := by
    rw [hargmax, Nat.cast_sub hj]
    push_cast
    ring_nf
  rw [hdom]
  refine ⟨_, rfl, rfl, ?_, rfl, rfl, rfl⟩
  rw [sub_self, abs_zero]
  positivity

/-- Witness for the amended C8: `N = 64`, `j = 1`, `fs = 1`, `C = B = 1`
gives a report with dominant frequency exactly `1/64`. -/
theorem C8_sinusoid_roundtrip_witness :
    ∃ r, analyze_gait (offsetSinusoidRows 64 1 1 1 1) = some r ∧
      r.dominant_frequency = ((1 : ℕ) : ℝ) * 1 / ((64 : ℕ) : ℝ) ∧
      |r.dominant_frequency - ((1 : ℕ) : ℝ) * 1 / ((64 : ℕ) : ℝ)| ≤ 1 / ((64 : ℕ) : ℝ) ∧
      r.cadence = ((1 : ℕ) : ℝ) * 1 / ((64 : ℕ) : ℝ) * 60 ∧
      r.sampling_frequency = 1 ∧
      r.data_points = 64 :=
  C8_sinusoid_roundtrip 64 1 1 1 1 (by norm_num) (by norm_num) (by norm_num)
    (by norm_num) (by norm_num) (by norm_num)

end Vesta
